import Mathlib

/-!
Verification development for the arke-export-mods-worker repository.

The definitions below are a shallow embedding of the TypeScript source:

* `src/crosswalk.ts` (`PinaxModsCrosswalk`): the PINAX → MODS crosswalk engine;
* `src/core/mods-exporter.ts` (`ModsExporter.generateMinimalMods` and the
  pinax-selection in `ModsExporter.export`, `ModsCollectionWriter`);
* text utilities (`truncateText`);
* `src/core/recursive-exporter.ts` (`RecursiveModsExporter.traverseBFS` /
  `exportRecursive`).

JavaScript strings are modelled as Lean `String`s and, where character
indexing matters (`truncateText` and the writer's string surgery), as
`List Char`.  JavaScript `undefined`/`null` optional fields become `Option`,
promise rejection becomes `Except`/an explicit outcome datatype, and the
mutable traversal state becomes explicit state passing.
-/

namespace ArkeExport

/-! ## Data model (src/core/types.ts) -/

/-- A JS value that is either a single string or an array of strings
(`z.union([z.string(), z.array(z.string())])`). -/
inductive StrOrList where
  | one (s : String)
  | many (l : List String)
  deriving DecidableEq, Repr

/-- `ArkeManifest` from types.ts. `components` is the ordered mapping from
component name to content fingerprint (CID). -/
structure ArkeManifest where
  pi : String
  ver : Nat
  ts : String
  manifest_cid : String
  prev_cid : Option String := none
  components : List (String × String) := []
  children_pi : Option (List String) := none
  parent_pi : Option String := none
  note : Option String := none
  deriving DecidableEq, Repr

/-- `PinaxMetadata` from types.ts (the zod schema `PinaxMetadataSchema`).
The `type` field is a string at the crosswalk's boundary (the zod enum of
twelve DCMI values constrains parsing, not the crosswalk function itself). -/
structure PinaxMetadata where
  id : String
  title : String
  type : String
  creator : StrOrList
  institution : String
  created : String
  access_url : String
  language : Option String := none
  subjects : Option (List String) := none
  description : Option String := none
  source : Option String := none
  rights : Option String := none
  place : Option StrOrList := none
  deriving DecidableEq, Repr

/-- `ExportConfig` from types.ts. -/
structure ExportConfig where
  apiUrl : String := "https://api.arke.institute"
  ipfsGateway : String := "https://ipfs.arke.institute"
  cdnUrl : String := "https://cdn.arke.institute"
  includeOcr : Bool := true
  cheimarrosMode : String := "full"
  validate : Bool := false
  verbose : Bool := true
  deriving DecidableEq, Repr

/-! ## MODS internal representation (ModsDocument and friends) -/

/-- The property names every plain object literal inherits from
`Object.prototype` in the Node runtime (the standard members plus the
Annex B accessors).  Reading any of them through `obj[key]` yields a
function — or, for `__proto__`, the prototype object — never `undefined`. -/
def objectPrototypeKeys : List String :=
  ["constructor", "hasOwnProperty", "isPrototypeOf", "propertyIsEnumerable",
   "toLocaleString", "toString", "valueOf", "__proto__",
   "__defineGetter__", "__defineSetter__", "__lookupGetter__",
   "__lookupSetter__"]

/-- A JS value observable from the `typeMap[dcmiType]` member access: one
of the literal's own string values, or a member inherited from
`Object.prototype` (a function or object, never a string). -/
inductive JsValue where
  | str (s : String)
  | protoMember (name : String)
  deriving DecidableEq, Repr

/-- JS truthiness of a defined lookup result: the empty string is falsy;
inherited prototype members are functions/objects and always truthy. -/
def JsValue.truthy : JsValue → Bool
  | .str s => s ≠ ""
  | .protoMember _ => true

structure ModsTitleInfo where
  title : String
  subTitle : Option String := none
  type : Option String := none
  displayLabel : Option String := none
  deriving DecidableEq, Repr

structure ModsRole where
  roleTerm : String
  type : Option String := none
  authority : Option String := none
  deriving DecidableEq, Repr

structure ModsName where
  type : String
  nameParts : List String
  displayForm : Option String := none
  roles : List ModsRole := []
  isSubject : Bool := false
  deriving DecidableEq, Repr

structure ModsOriginInfo where
  places : List String := []
  publisher : Option String := none
  dateCreated : Option String := none
  dateIssued : Option String := none
  encoding : Option String := none
  keyDate : Bool := false
  deriving DecidableEq, Repr

structure ModsLanguage where
  languageTerm : String
  type : String
  authority : Option String := none
  deriving DecidableEq, Repr

structure ModsNote where
  text : String
  type : Option String := none
  displayLabel : Option String := none
  deriving DecidableEq, Repr

structure ModsSubject where
  topics : List String := []
  geographic : List String := []
  temporal : List String := []
  names : List ModsName := []
  deriving DecidableEq, Repr

structure ModsIdentifier where
  value : String
  type : Option String := none
  displayLabel : Option String := none
  deriving DecidableEq, Repr

structure ModsUrl where
  url : String
  usage : Option String := none
  access : Option String := none
  displayLabel : Option String := none
  deriving DecidableEq, Repr

structure ModsLocation where
  physicalLocation : Option String := none
  urls : List ModsUrl := []
  deriving DecidableEq, Repr

structure ModsAccessCondition where
  text : String
  type : Option String := none
  deriving DecidableEq, Repr

structure ModsRecordInfo where
  recordContentSource : Option String := none
  recordIdentifier : Option String := none
  recordIdentifierSource : Option String := none
  recordCreationDate : Option String := none
  recordChangeDate : Option String := none
  recordOrigin : Option String := none
  languageOfCataloging : Option ModsLanguage := none
  descriptionStandard : Option String := none
  deriving DecidableEq, Repr

/-- `ModsRelatedItem`, reduced to the fields the embedded code constructs
(the crosswalk and the minimal-MODS generator both produce an empty list). -/
structure ModsRelatedItem where
  type : String
  displayLabel : Option String := none
  identifiers : List ModsIdentifier := []
  notes : List ModsNote := []
  deriving DecidableEq, Repr

/-- `ModsDocument`.  The TS interface declares `typeOfResource?: string`,
but the value actually stored is whatever `mapResourceType` returns, and
the prototype-chain leak there means a non-string can inhabit the field at
runtime, so the embedding uses the runtime-faithful `JsValue`. -/
structure ModsDocument where
  titleInfo : List ModsTitleInfo
  names : List ModsName
  typeOfResource : Option JsValue
  genre : List String
  originInfo : Option ModsOriginInfo
  language : Option (List ModsLanguage)
  abstract : Option String
  notes : List ModsNote
  subjects : List ModsSubject
  identifiers : List ModsIdentifier
  location : Option ModsLocation
  accessConditions : List ModsAccessCondition
  relatedItems : List ModsRelatedItem
  recordInfo : ModsRecordInfo
  deriving DecidableEq, Repr

/-! ## PinaxModsCrosswalk (src/crosswalk.ts) -/

/-- JS truthiness of an optional string (`undefined`, `null` and `""` are
falsy). -/
def strTruthy : Option String → Bool
  | some s => s ≠ ""
  | none => false

/-- `PinaxModsCrosswalk.mapTitle`. -/
def mapTitle (pinax : PinaxMetadata) : List ModsTitleInfo :=
  [{ title := pinax.title }]

/-- `PinaxModsCrosswalk.mapCreators`: one personal name per creator with role
"creator", plus the institution as a corporate name with role "repository". -/
def mapCreators (pinax : PinaxMetadata) : List ModsName :=
  let creators := match pinax.creator with
    | .one s => [s]
    | .many l => l
  (creators.map fun creator =>
    { type := "personal", nameParts := [creator],
      roles := [{ roleTerm := "creator", type := some "text" }] })
  ++ [{ type := "corporate", nameParts := [pinax.institution],
        roles := [{ roleTerm := "repository", type := some "text" }] }]

/-- The member access `typeMap[dcmiType]` on the object literal of
`mapResourceType`: the twelve own properties first, then the
`Object.prototype` chain, and `undefined` (`none`) otherwise. -/
def typeMapGet (dcmiType : String) : Option JsValue :=
  if dcmiType = "Text" then some (.str "text")
  else if dcmiType = "Image" then some (.str "still image")
  else if dcmiType = "StillImage" then some (.str "still image")
  else if dcmiType = "MovingImage" then some (.str "moving image")
  else if dcmiType = "Sound" then some (.str "sound recording")
  else if dcmiType = "Dataset" then some (.str "software, multimedia")
  else if dcmiType = "InteractiveResource" then some (.str "software, multimedia")
  else if dcmiType = "Software" then some (.str "software, multimedia")
  else if dcmiType = "Collection" then some (.str "mixed material")
  else if dcmiType = "PhysicalObject" then some (.str "three dimensional object")
  else if dcmiType = "Event" then some (.str "text")
  else if dcmiType = "Service" then some (.str "text")
  else if dcmiType ∈ objectPrototypeKeys then some (.protoMember dcmiType)
  else none

/-- `PinaxModsCrosswalk.mapResourceType`, i.e. `typeMap[dcmiType] || 'text'`:
a truthy lookup result is returned as-is (this includes members inherited
from `Object.prototype` for inputs such as `"toString"`), and only a falsy
result (`undefined`) falls back to the string `'text'`. -/
def mapResourceType (dcmiType : String) : JsValue :=
  match typeMapGet dcmiType with
  | some v => if v.truthy then v else .str "text"
  | none => .str "text"

/-- The twelve source-vocabulary keys of `mapResourceType`'s lookup table. -/
def resourceTypeKeys : List String :=
  ["Text", "Image", "StillImage", "MovingImage", "Sound", "Dataset",
   "InteractiveResource", "Software", "Collection", "PhysicalObject",
   "Event", "Service"]

/-- `PinaxModsCrosswalk.mapOriginInfo`. -/
def mapOriginInfo (pinax : PinaxMetadata) : ModsOriginInfo :=
  { dateCreated := some pinax.created, encoding := some "w3cdtf", keyDate := true }

/-- `PinaxModsCrosswalk.mapLanguage`: BCP-47 → ISO 639-2b via a small lookup
table, with the `langMap[lang] || lang.substring(0, 3)` fallback. -/
def mapLanguage (pinax : PinaxMetadata) : Option (List ModsLanguage) :=
  match pinax.language with
  | none => none
  | some lang =>
    if lang = "" then none   -- JS: `if (!pinax.language) return undefined`
    else
      let iso6392b :=
        if lang = "en" then "eng"
        else if lang = "en-US" then "eng"
        else if lang = "en-GB" then "eng"
        else if lang = "es" then "spa"
        else if lang = "es-MX" then "spa"
        else if lang = "fr" then "fre"
        else if lang = "de" then "ger"
        else if lang = "it" then "ita"
        else if lang = "pt" then "por"
        else if lang = "zh" then "chi"
        else if lang = "ja" then "jpn"
        else if lang = "ar" then "ara"
        else if lang = "ru" then "rus"
        else lang.take 3
      some [{ languageTerm := iso6392b, type := "code", authority := some "iso639-2b" }]

/-- `PinaxModsCrosswalk.mapSubjects`: one subject entry per topical term and
one per geographic term. -/
def mapSubjects (pinax : PinaxMetadata) : List ModsSubject :=
  let topical : List ModsSubject :=
    match pinax.subjects with
    | some l => if l.length > 0 then l.map (fun topic => { topics := [topic] }) else []
    | none => []
  let geographic : List ModsSubject :=
    match pinax.place with
    | some (.one s) =>
      if s = "" then []   -- JS: `if (pinax.place)` — the empty string is falsy
      else [{ geographic := [s] }]
    | some (.many l) => l.map (fun place => { geographic := [place] })
    | none => []
  topical ++ geographic

/-- `PinaxModsCrosswalk.mapIdentifiers`: PINAX local id, Arke PI, and the
access URI (the `PLACEHOLDER` sentinel is replaced by a URI built from the
PI). -/
def mapIdentifiers (pinax : PinaxMetadata) (manifest : ArkeManifest) : List ModsIdentifier :=
  [ { value := pinax.id, type := some "local", displayLabel := some "PINAX ID" },
    { value := manifest.pi, type := some "arke-pi",
      displayLabel := some "Arke Persistent Identifier" },
    { value :=
        if pinax.access_url = "PLACEHOLDER"
        then "https://arke.institute/" ++ manifest.pi
        else pinax.access_url,
      type := some "uri", displayLabel := some "Arke URI" } ]

/-- `PinaxModsCrosswalk.mapLocation`. -/
def mapLocation (config : ExportConfig) (pinax : PinaxMetadata)
    (manifest : ArkeManifest) : ModsLocation :=
  let arkeUrl :=
    if pinax.access_url = "PLACEHOLDER"
    then "https://arke.institute/" ++ manifest.pi
    else pinax.access_url
  { physicalLocation := some pinax.institution,
    urls :=
      [ { url := arkeUrl, usage := some "primary display",
          access := some "object in context", displayLabel := some "View in Arke" },
        { url := config.ipfsGateway ++ "/ipfs/" ++ manifest.manifest_cid,
          displayLabel := some "IPFS Manifest" } ] }

/-- `PinaxModsCrosswalk.mapAccessConditions`. -/
def mapAccessConditions (pinax : PinaxMetadata) : List ModsAccessCondition :=
  match pinax.rights with
  | none => []
  | some r =>
    if r = "" then []   -- JS: `if (!pinax.rights) return []`
    else [{ text := r, type := some "use and reproduction" }]

/-- `PinaxModsCrosswalk.mapNotes`: always a version note; a PINAX-description
note when a separate description exists and differs; optionally a source
note. -/
def mapNotes (pinax : PinaxMetadata) (manifest : ArkeManifest)
    (description : Option String) : List ModsNote :=
  let versionNote : ModsNote :=
    { text := "Version " ++ toString manifest.ver ++ " • Manifest CID: "
        ++ manifest.manifest_cid,
      type := some "version", displayLabel := some "Arke Version" }
  let descNotes : List ModsNote :=
    match description, pinax.description with
    | some d, some pd =>
      -- JS: `if (description && pinax.description && description !== pinax.description)`
      if d ≠ "" ∧ pd ≠ "" ∧ d ≠ pd then
        [{ text := pd, type := some "summary", displayLabel := some "PINAX Description" }]
      else []
    | _, _ => []
  let sourceNotes : List ModsNote :=
    match pinax.source with
    | some src =>
      if src = "" then []
      else [{ text := src, type := some "source", displayLabel := some "Source System" }]
    | none => []
  versionNote :: (descNotes ++ sourceNotes)

/-- `PinaxModsCrosswalk.mapRecordInfo`. -/
def mapRecordInfo (manifest : ArkeManifest) : ModsRecordInfo :=
  { recordContentSource := some "Arke Institute",
    recordIdentifier := some manifest.pi,
    recordIdentifierSource := some "arke-pi",
    recordCreationDate := some manifest.ts,
    descriptionStandard := some "pinax" }

/-- JS `description || pinax.description` (the abstract): falls through on
`undefined`/`null`/the empty string. -/
def jsOrStr (a b : Option String) : Option String :=
  match a with
  | some s => if s = "" then b else some s
  | none => b

/-- `PinaxModsCrosswalk.crosswalk`: the full PINAX → MODS mapping. -/
def crosswalk (config : ExportConfig) (pinax : PinaxMetadata)
    (manifest : ArkeManifest) (description : Option String) : ModsDocument :=
  { titleInfo := mapTitle pinax,
    names := mapCreators pinax,
    typeOfResource := some (mapResourceType pinax.type),
    genre := [],
    originInfo := some (mapOriginInfo pinax),
    language := mapLanguage pinax,
    abstract := jsOrStr description pinax.description,
    notes := mapNotes pinax manifest description,
    subjects := mapSubjects pinax,
    identifiers := mapIdentifiers pinax manifest,
    location := some (mapLocation config pinax manifest),
    accessConditions := mapAccessConditions pinax,
    relatedItems := [],
    recordInfo := mapRecordInfo manifest }

/-! ## ModsExporter (src/core/mods-exporter.ts) -/

/-- `ModsExporter.generateMinimalMods`: the graceful-degradation record built
from the manifest alone when `pinax.json` is missing.  `nowDate` models
`new Date().toISOString().split('T')[0]` (the only impure input). -/
def generateMinimalMods (manifest : ArkeManifest) (nowDate : String) : ModsDocument :=
  { titleInfo :=
      [ { title := "[Incomplete Record: " ++ manifest.pi ++ "]",
          type := some "alternative" } ],
    names := [],
    typeOfResource := none,
    genre := [],
    originInfo := none,
    language := none,
    abstract := none,
    notes :=
      [ { type := some "metadata-status", displayLabel := some "Metadata Status",
          text := "Incomplete: PINAX metadata unavailable at time of export. This is a minimal record generated from manifest data only." },
        { type := some "metadata-remediation", displayLabel := some "Remediation Note",
          text := "To complete this record, ensure pinax.json component exists for PI "
            ++ manifest.pi ++ " and re-export." } ],
    subjects := [],
    identifiers :=
      [ { type := some "arke-pi", displayLabel := some "Arke Persistent Identifier",
          value := manifest.pi },
        { type := some "arke-manifest-cid", displayLabel := some "Manifest CID",
          value := manifest.manifest_cid } ],
    location := some
      { urls :=
          [ { url := "https://api.arke.institute/manifest/" ++ manifest.pi,
              usage := some "primary", displayLabel := some "Arke Manifest API" } ] },
    accessConditions := [],
    relatedItems := [],
    recordInfo :=
      { recordContentSource := some "Arke Institute",
        recordCreationDate := some nowDate,
        recordOrigin := some "Generated by arke-mods-export-worker with graceful degradation (missing PINAX)",
        descriptionStandard := some "mods",
        languageOfCataloging := some
          { languageTerm := "eng", type := "code", authority := some "iso639-2b" } } }

/-- Step 3 of `ModsExporter.export`: with no `pinax.json` the exporter falls
back to `generateMinimalMods` and flags the record incomplete; otherwise it
runs the crosswalk.  Returns the document and the `isIncomplete` flag. -/
def modsForEntity (config : ExportConfig) (pinax : Option PinaxMetadata)
    (manifest : ArkeManifest) (description : Option String)
    (nowDate : String) : ModsDocument × Bool :=
  match pinax with
  | none => (generateMinimalMods manifest nowDate, true)
  | some p => (crosswalk config p manifest description, false)

/-- `sub` occurs as a contiguous substring of `s`. -/
def containsSub (s sub : String) : Prop :=
  ∃ pre post, s = pre ++ sub ++ post

/-! ## Text utilities (`truncateText`)

JS strings are sequences of UTF-16 code units; we model the text as a
`List Char` with positional indexing (`text[i]` becomes `List.get?`). -/

/-- Result of text truncation (`TruncateResult`). -/
structure TruncateResult where
  text : List Char
  truncated : Bool
  deriving DecidableEq, Repr

/-- The characters the truncation loop treats as a word boundary
(`char === ' ' || char === '\n' || char === '\t'`). -/
def isBreakChar (c : Char) : Bool :=
  c = ' ' || c = '\n' || c = '\t'

/-- `text[i]` is a word-boundary character (out-of-range reads are
`undefined`, which is not a boundary). -/
def breakCharAt (text : List Char) (i : Nat) : Bool :=
  match text.get? i with
  | some c => isBreakChar c
  | none => false

/-- The whitespace class of JS `String.prototype.trim` (restricted to the
ASCII part, which is all that can be adjacent to the break characters the
loop recognises). -/
def isJsTrimWs (c : Char) : Bool :=
  c = ' ' || c = '\t' || c = '\n' || c = '\r' || c = '\x0b' || c = '\x0c'

/-- JS `.trim()`. -/
def jsTrim (l : List Char) : List Char :=
  ((l.dropWhile isJsTrimWs).reverse.dropWhile isJsTrimWs).reverse

/-- JS `.trimEnd()`. -/
def jsTrimEnd (l : List Char) : List Char :=
  (l.reverse.dropWhile isJsTrimWs).reverse

/-- The suffix appended to truncated text (`'\n\n[... truncated ...]'`). -/
def truncationMarker : List Char := "\n\n[... truncated ...]".toList

/-- `Math.max(0, maxLength - 100)` (the `-` on `Nat` already truncates). -/
def lookBackLimit (maxLength : Nat) : Nat := maxLength - 100

/-- The backwards scan `for (let i = maxLength; i > lookBackLimit; i--)`:
checks positions `lb + k, lb + k - 1, …, lb + 1` for a break character and
returns the first (largest) hit. -/
def findBreakAux (text : List Char) (lb : Nat) : Nat → Option Nat
  | 0 => none
  | k + 1 => if breakCharAt text (lb + k + 1) then some (lb + k + 1)
             else findBreakAux text lb k

/-- The break point chosen by `truncateText`: the nearest word boundary at or
below `maxLength` within the look-back window, or `maxLength` itself when the
window has none. -/
def findBreakPoint (text : List Char) (maxLength : Nat) : Nat :=
  (findBreakAux text (lookBackLimit maxLength)
    (maxLength - lookBackLimit maxLength)).getD maxLength

/-- `truncateText` from the text utilities: texts not longer than
`maxLength` (including the empty text, JS `!text`) are returned unchanged;
longer texts are cut at the break point, trimmed, and suffixed with the
truncation marker. -/
def truncateText (text : List Char) (maxLength : Nat) : TruncateResult :=
  if text.length ≤ maxLength then
    { text := text, truncated := false }
  else
    { text := jsTrim (text.take (findBreakPoint text maxLength)) ++ truncationMarker,
      truncated := true }

/-! ## ModsCollectionWriter (src/core/mods-collection-writer.ts) -/

/-- `EntityNode` from mods-collection-writer.ts. -/
structure EntityNode where
  pi : String
  depth : Nat
  parentPI : Option String := none
  pathFromRoot : List String
  deriving DecidableEq, Repr

/-- The regex tail `[^>]*\?>` of the XML-declaration pattern: after `<?xml`,
the match ends at the first `>` provided it is preceded by `?`; a bare `>`
makes the whole pattern fail at this start position. -/
def jsXmlDeclRest : List Char → Option (List Char)
  | '?' :: '>' :: rest => some rest
  | c :: rest => if c = '>' then none else jsXmlDeclRest rest
  | [] => none

/-- `xml.replace(/<\?xml[^>]*\?>\s*/, '')`: remove the first XML-declaration
match (and trailing whitespace); leave the string unchanged when the pattern
never matches. -/
def replaceXmlDecl : List Char → List Char
  | [] => []
  | c :: rest =>
    if ("<?xml".toList).isPrefixOf (c :: rest) then
      match jsXmlDeclRest (List.drop 5 (c :: rest)) with
      | some r => r.dropWhile isJsTrimWs
      | none => c :: replaceXmlDecl rest
    else c :: replaceXmlDecl rest

/-- `content.indexOf(pat)` (`none` for JS `-1`). -/
def firstOccur (pat : List Char) : List Char → Option Nat
  | [] => if pat.isPrefixOf [] then some 0 else none
  | c :: rest =>
    if pat.isPrefixOf (c :: rest) then some 0
    else (firstOccur pat rest).map (· + 1)

/-- `content.split('\n').join('\n  ')`: two spaces of indentation after each
newline. -/
def indentAfterNewlines : List Char → List Char
  | [] => []
  | c :: rest =>
    if c = '\n' then '\n' :: ' ' :: ' ' :: indentAfterNewlines rest
    else c :: indentAfterNewlines rest

/-- `ModsCollectionWriter.extractModsElement`: strip the XML declaration,
locate the `<mods` element (error when absent), and re-indent. -/
def extractModsElement (xml : List Char) : Except String (List Char) :=
  let content := replaceXmlDecl xml
  match firstOccur "<mods".toList content with
  | none => .error "No <mods> element found in XML"
  | some modsStart =>
    .ok (' ' :: ' ' :: jsTrimEnd (indentAfterNewlines (content.drop modsStart)))

/-- Scan `[^>]*` up to the first `>`: returns the consumed attribute
characters and the remainder starting at `>`. -/
def scanToGt : List Char → Option (List Char × List Char)
  | [] => none
  | c :: rest =>
    if c = '>' then some ([], c :: rest)
    else (scanToGt rest).map (fun p => (c :: p.1, p.2))

/-- `modsXml.replace(/^(\s*<mods[^>]*)(>)/, …)`: inject
` ID="entity-<pi>"` before the `>` that closes the opening `<mods` tag;
unchanged when the anchored pattern does not match. -/
def addIdAttribute (modsXml : List Char) (pi : String) : List Char :=
  let ws := modsXml.takeWhile isJsTrimWs
  let rest := modsXml.dropWhile isJsTrimWs
  if ("<mods".toList).isPrefixOf rest then
    match scanToGt (rest.drop 5) with
    | some (attrs, gtRest) =>
      ws ++ "<mods".toList ++ attrs
        ++ (" ID=\"entity-" ++ pi ++ "\"").toList ++ gtRest
    | none => modsXml
  else modsXml

/-- The hierarchy note injected into each record (the `join('')` of the
array literal in `addHierarchyMetadata`). -/
def hierarchyNote (node : EntityNode) : List Char :=
  ("    <note type=\"hierarchy\" displayLabel=\"Tree Position\">"
    ++ "      depth: " ++ toString node.depth
    ++ (match node.parentPI with
        | some p => if p = "" then "" else ", parent: " ++ p
        | none => "")
    ++ ", path: /" ++ String.intercalate "/" node.pathFromRoot
    ++ "    </note>").toList

/-- `withId.replace(/(\s*)<\/mods>\s*$/, …)`: insert the hierarchy note
before the final `</mods>` (the match must reach the end of the string
through whitespace only); unchanged when the pattern does not match. -/
def insertHierarchyNote (modsXml : List Char) (note : List Char) : List Char :=
  let r := modsXml.reverse
  let afterWs := r.dropWhile isJsTrimWs
  if ("</mods>".toList.reverse).isPrefixOf afterWs then
    let beforeTag := afterWs.drop 7
    let wsGroupRev := beforeTag.takeWhile isJsTrimWs
    let core := beforeTag.dropWhile isJsTrimWs
    core.reverse ++ ('\n' :: note) ++ ('\n' :: wsGroupRev.reverse) ++ "</mods>".toList
  else modsXml

/-- `ModsCollectionWriter.addHierarchyMetadata`. -/
def addHierarchyMetadata (modsXml : List Char) (node : EntityNode) : List Char :=
  insertHierarchyNote (addIdAttribute modsXml node.pi) (hierarchyNote node)

/-- The writer's state: `stream` is the sink (`none` models an uninitialised
`WriteStream`, `some chunks` the ordered appends accepted so far) and
`isOpen` the writer's open flag. -/
structure WriterState where
  stream : Option (List (List Char)) := none
  isOpen : Bool := false
  deriving DecidableEq, Repr

/-- The fresh writer (`new ModsCollectionWriter()`). -/
def initialWriterState : WriterState := {}

/-- `ModsCollectionWriter.write`: reject when the stream was never created,
otherwise append the chunk (backpressure suspension has no observable
state effect). -/
def writeChunk (s : WriterState) (data : List Char) : Except String WriterState :=
  match s.stream with
  | none => .error "Stream not initialized"
  | some chunks => .ok { s with stream := some (chunks ++ [data]) }

/-- `ModsCollectionWriter.open`: create the stream, emit the declaration and
the `modsCollection` header, then mark the writer open. -/
def openWriter (s : WriterState) (_outputPath : String) : Except String WriterState := do
  let s1 : WriterState := { s with stream := some [] }
  let s2 ← writeChunk s1 "<?xml version=\"1.0\" encoding=\"UTF-8\"?>\n".toList
  let s3 ← writeChunk s2 "<modsCollection xmlns=\"http://www.loc.gov/mods/v3\" ".toList
  let s4 ← writeChunk s3 "xmlns:xsi=\"http://www.w3.org/2001/XMLSchema-instance\" ".toList
  let s5 ← writeChunk s4 "xsi:schemaLocation=\"http://www.loc.gov/mods/v3 https://www.loc.gov/standards/mods/mods-3-8.xsd\">\n".toList
  pure { s5 with isOpen := true }

/-- `ModsCollectionWriter.writeMods`: reject unless the writer is open with a
live stream; extract the `<mods>` element (an error when absent leaves the
sink untouched), enrich it with the hierarchy metadata and append it. -/
def writeMods (s : WriterState) (modsXml : List Char) (node : EntityNode) :
    Except String WriterState :=
  if s.isOpen = false ∨ s.stream = none then
    .error "Writer not open - call open() first"
  else
    match extractModsElement modsXml with
    | .error e => .error e
    | .ok modsElement =>
      writeChunk s (addHierarchyMetadata modsElement node ++ "\n".toList)

/-- `ModsCollectionWriter.close`: a no-op when the stream was never created;
otherwise emit the collection footer. -/
def closeWriter (s : WriterState) : Except String WriterState :=
  match s.stream with
  | none => .ok s
  | some _ => writeChunk s "</modsCollection>\n".toList

/-! ## RecursiveModsExporter (src/core/recursive-exporter.ts)

`processEntity` fetches the manifest, exports the entity and writes the
record; any promise rejection along that pipeline (fetch, export, write)
surfaces through `Promise.allSettled` as a rejected slot.  The remote store
is deterministic per PI, so the settled outcome of a node's task is a
function of its PI alone; we abstract it as an `Env`.  Per the concurrency
design, the queue, visited set and counters are mutated only by the
coordinating loop, which folds the settled batch results sequentially, so
the batched traversal is modelled by sequential folds over levels split
into `parallelBatchSize`-chunks. -/

/-- The settled outcome of `processEntity` for one PI: `failed` models a
rejected promise (fetch/transform/write failure), `ok children hasPinax`
models fulfilment with the manifest's `children_pi` (the empty list covers
an absent list) and the presence bit of the `pinax.json` component. -/
inductive EntityOutcome where
  | failed (msg : String)
  | ok (children : List String) (hasPinax : Bool)
  deriving DecidableEq, Repr

/-- The per-PI behaviour of the remote store and export pipeline. -/
def Env : Type := String → EntityOutcome

/-- Ghost record of one enqueue: either the root seeded into the queue, or a
child pushed while handling its parent's result. -/
inductive EnqueueEvent where
  | root (node : EntityNode)
  | child (parent : EntityNode) (node : EntityNode)
  deriving DecidableEq, Repr

/-- The node an event enqueued. -/
@[simp]
def EnqueueEvent.node : EnqueueEvent → EntityNode
  | .root n => n
  | .child _ n => n

/-- Depth discipline of one enqueue: the root enters at depth 0; a child
enters at exactly its parent's depth plus one, and only when the parent sat
strictly below the configured maximum depth. -/
def eventOk (maxDepth : Nat) : EnqueueEvent → Bool
  | .root n => n.depth == 0
  | .child p c => (c.depth == p.depth + 1) && decide (p.depth < maxDepth)

/-- The traversal state of `traverseBFS`.  `written` and `events` are ghost
logs (most recent first for `events`): `written` records one entry per
`writer.writeMods` call, `events` one entry per queue push; they instrument
the embedding so that properties of the event history can be stated, and
influence nothing. -/
structure TraverseState where
  queue : List EntityNode
  visited : List String
  entityCount : Nat
  successCount : Nat
  incompleteCount : Nat
  errors : List (String × String)
  incompleteRecords : List (String × String)
  written : List String
  events : List EnqueueEvent
  deriving DecidableEq, Repr

/-- The body of the child loop (lines 194–204): skip identifiers already in
the visited set; otherwise push a node at depth `parent + 1` and mark the
identifier visited immediately. -/
def enqueueChild (node : EntityNode) (st : TraverseState) (childPI : String) :
    TraverseState :=
  if childPI ∈ st.visited then st
  else
    let child : EntityNode :=
      { pi := childPI, depth := node.depth + 1, parentPI := some node.pi,
        pathFromRoot := node.pathFromRoot ++ [childPI] }
    { st with queue := st.queue ++ [child],
              visited := childPI :: st.visited,
              events := .child node child :: st.events }

/-- `for (const childPI of result.value.children) … `. -/
def enqueueChildren (node : EntityNode) (children : List String)
    (st : TraverseState) : TraverseState :=
  children.foldl (enqueueChild node) st

/-- Handling one settled slot of a batch (lines 172–235), together with the
effects `processEntity` had inside the task (the stream write and the
incomplete-record push): a rejection records the error and enqueues nothing;
fulfilment counts a success, additionally counts/records the record as
incomplete when `pinax.json` was absent, and enqueues the children when the
node is below the maximum depth (also when incomplete). -/
def handleResult (maxDepth : Nat) (env : Env) (node : EntityNode)
    (s : TraverseState) : TraverseState :=
  match env node.pi with
  | .failed msg =>
    { s with entityCount := s.entityCount + 1,
             errors := s.errors ++ [(node.pi, msg)] }
  | .ok children hasPinax =>
    let s1 : TraverseState :=
      { s with entityCount := s.entityCount + 1,
               successCount := s.successCount + 1,
               incompleteCount :=
                 if hasPinax then s.incompleteCount else s.incompleteCount + 1,
               written := s.written ++ [node.pi],
               incompleteRecords :=
                 if hasPinax then s.incompleteRecords
                 else s.incompleteRecords
                   ++ [(node.pi, "Missing PINAX metadata (pinax.json component not found)")] }
    if node.depth < maxDepth then enqueueChildren node children s1 else s1

/-- `RecursiveModsExporter.extractCurrentLevel`: shift the contiguous run of
front nodes sharing the first node's depth. -/
def extractCurrentLevel : List EntityNode → List EntityNode × List EntityNode
  | [] => ([], [])
  | n :: rest =>
    ((n :: rest).takeWhile (fun m => m.depth == n.depth),
     (n :: rest).dropWhile (fun m => m.depth == n.depth))

/-- Structural worker for `chunkList`: the fuel bounds the number of chunks
(one chunk consumes at least one element, so `l.length` fuel always
suffices). -/
def chunkAux {α : Type} (batchSize : Nat) : Nat → List α → List (List α)
  | _, [] => []
  | 0, l => [l]
  | fuel + 1, x :: xs =>
    (x :: xs.take (batchSize - 1)) :: chunkAux batchSize fuel (xs.drop (batchSize - 1))

/-- The batch split `for (let i = 0; i < level.length; i += batchSize)`
with `level.slice(i, i + batchSize)` (the source diverges for
`batchSize = 0`; as in the deployed configuration we take at least one
element per chunk, so for `batchSize ≥ 1` the chunks are exactly the
slices). -/
def chunkList {α : Type} (batchSize : Nat) (l : List α) : List (List α) :=
  chunkAux batchSize l.length l

/-- Fold the settled results of one batch in slot order. -/
def processBatch (maxDepth : Nat) (env : Env) (s : TraverseState)
    (batch : List EntityNode) : TraverseState :=
  batch.foldl (fun st node => handleResult maxDepth env node st) s

/-- Process one depth level in batches of `batchSize`. -/
def processLevel (maxDepth batchSize : Nat) (env : Env)
    (level : List EntityNode) (s : TraverseState) : TraverseState :=
  (chunkList batchSize level).foldl (processBatch maxDepth env) s

/-- The `while (queue.length > 0)` loop of `traverseBFS`, with explicit
fuel: `none` means the fuel ran out before the queue emptied. -/
def traverseLoop (maxDepth batchSize : Nat) (env : Env) :
    Nat → TraverseState → Option TraverseState
  | 0, s => if s.queue = [] then some s else none
  | fuel + 1, s =>
    if s.queue = [] then some s
    else
      let lv := extractCurrentLevel s.queue
      traverseLoop maxDepth batchSize env fuel
        (processLevel maxDepth batchSize env lv.1 { s with queue := lv.2 })

/-- The state seeded by `traverseBFS`: the root node at depth 0 in the
queue, the root PI in the visited set, all counters zero. -/
def initState (rootPI : String) : TraverseState :=
  { queue := [{ pi := rootPI, depth := 0, pathFromRoot := [rootPI] }],
    visited := [rootPI],
    entityCount := 0, successCount := 0, incompleteCount := 0,
    errors := [], incompleteRecords := [], written := [],
    events := [.root { pi := rootPI, depth := 0, pathFromRoot := [rootPI] }] }

/-- `RecursiveModsExporter.traverseBFS`. -/
def traverseBFS (rootPI : String) (maxDepth batchSize : Nat) (env : Env)
    (fuel : Nat) : Option TraverseState :=
  traverseLoop maxDepth batchSize env fuel (initState rootPI)

/-- `RecursiveExportResult`, restricted to the summary fields the claims
concern (timings and memory sampling are impure telemetry). -/
structure RecursiveExportResult where
  totalEntities : Nat
  successCount : Nat
  errorCount : Nat
  incompleteCount : Nat
  outputPath : String
  errors : List (String × String)
  incompleteRecords : List (String × String)
  deriving DecidableEq, Repr

/-- `RecursiveModsExporter.exportRecursive`: run the traversal and package
the summary (`errorCount` is `errors.length`). -/
def exportRecursive (rootPI outputPath : String) (maxDepth batchSize : Nat)
    (env : Env) (fuel : Nat) : Option RecursiveExportResult :=
  (traverseBFS rootPI maxDepth batchSize env fuel).map fun s =>
    { totalEntities := s.entityCount,
      successCount := s.successCount,
      errorCount := s.errors.length,
      incompleteCount := s.incompleteCount,
      outputPath := outputPath,
      errors := s.errors,
      incompleteRecords := s.incompleteRecords }

/-! ## Concrete environments used to evaluate the model -/

/-- A diamond: `root` has children `a` and `b`, which share the child `c`
(the duplicate-discovery scenario). -/
def envDiamond : Env := fun p =>
  if p = "root" then .ok ["a", "b"] true
  else if p = "a" then .ok ["c"] true
  else if p = "b" then .ok ["c"] true
  else .ok [] true

/-- `root` has two children; fetching `a` fails, `b` exports without
`pinax.json` (one error, one incomplete). -/
def envOneError : Env := fun p =>
  if p = "root" then .ok ["a", "b"] true
  else if p = "a" then .failed "Manifest fetch failed"
  else .ok [] false

/-- The final state of the traversal of `envDiamond` (4 iterations empty the
queue). -/
def sDiamond : TraverseState :=
  { queue := [],
    visited := ["c", "b", "a", "root"],
    entityCount := 4, successCount := 4, incompleteCount := 0,
    errors := [], incompleteRecords := [],
    written := ["root", "a", "b", "c"],
    events :=
      [ .child { pi := "a", depth := 1, parentPI := some "root", pathFromRoot := ["root", "a"] }
          { pi := "c", depth := 2, parentPI := some "a", pathFromRoot := ["root", "a", "c"] },
        .child { pi := "root", depth := 0, parentPI := none, pathFromRoot := ["root"] }
          { pi := "b", depth := 1, parentPI := some "root", pathFromRoot := ["root", "b"] },
        .child { pi := "root", depth := 0, parentPI := none, pathFromRoot := ["root"] }
          { pi := "a", depth := 1, parentPI := some "root", pathFromRoot := ["root", "a"] },
        .root { pi := "root", depth := 0, parentPI := none, pathFromRoot := ["root"] } ] }

/-- The final state of the traversal of `envOneError` (3 iterations empty
the queue). -/
def sOneError : TraverseState :=
  { queue := [],
    visited := ["b", "a", "root"],
    entityCount := 3, successCount := 2, incompleteCount := 1,
    errors := [("a", "Manifest fetch failed")],
    incompleteRecords := [("b", "Missing PINAX metadata (pinax.json component not found)")],
    written := ["root", "b"],
    events :=
      [ .child { pi := "root", depth := 0, parentPI := none, pathFromRoot := ["root"] }
          { pi := "b", depth := 1, parentPI := some "root", pathFromRoot := ["root", "b"] },
        .child { pi := "root", depth := 0, parentPI := none, pathFromRoot := ["root"] }
          { pi := "a", depth := 1, parentPI := some "root", pathFromRoot := ["root", "a"] },
        .root { pi := "root", depth := 0, parentPI := none, pathFromRoot := ["root"] } ] }

end ArkeExport

namespace ArkeExport

/-! ## Helper lemmas for `truncateText` -/

theorem findBreakAux_some (text : List Char) (lb : Nat) :
    ∀ k i, findBreakAux text lb k = some i →
      lb < i ∧ i ≤ lb + k ∧ breakCharAt text i = true := by
  intro k
  induction k with
  | zero => intro i h; simp [findBreakAux] at h
  | succ k ih =>
    intro i h
    unfold findBreakAux at h
    split at h
    · obtain rfl : lb + k + 1 = i := by injection h
      refine ⟨by omega, by omega, by assumption⟩
    · obtain ⟨h1, h2, h3⟩ := ih i h
      exact ⟨h1, by omega, h3⟩

theorem findBreakAux_none (text : List Char) (lb : Nat) :
    ∀ k, findBreakAux text lb k = none →
      ∀ i, lb < i → i ≤ lb + k → breakCharAt text i = false := by
  intro k
  induction k with
  | zero => intro _ i h1 h2; omega
  | succ k ih =>
    intro h i h1 h2
    unfold findBreakAux at h
    split at h
    · exact absurd h (by simp)
    · rcases Nat.lt_or_ge i (lb + k + 1) with hlt | hge
      · exact ih h i h1 (by omega)
      · obtain rfl : i = lb + k + 1 := by omega
        simpa using Bool.of_not_eq_true (by assumption)

theorem dropWhile_length_le (p : Char → Bool) (l : List Char) :
    (l.dropWhile p).length ≤ l.length := by
  induction l with
  | nil => simp
  | cons c rest ih =>
    by_cases h : p c
    · simp only [List.dropWhile_cons, h, if_true]
      exact Nat.le_trans ih (Nat.le_succ _)
    · simp [List.dropWhile_cons, h]

theorem jsTrim_length_le (l : List Char) : (jsTrim l).length ≤ l.length := by
  unfold jsTrim
  calc ((l.dropWhile isJsTrimWs).reverse.dropWhile isJsTrimWs).reverse.length
      = ((l.dropWhile isJsTrimWs).reverse.dropWhile isJsTrimWs).length := by
        rw [List.length_reverse]
    _ ≤ (l.dropWhile isJsTrimWs).reverse.length := dropWhile_length_le _ _
    _ = (l.dropWhile isJsTrimWs).length := by rw [List.length_reverse]
    _ ≤ l.length := dropWhile_length_le _ _

theorem findBreakPoint_le (text : List Char) (maxLength : Nat) :
    findBreakPoint text maxLength ≤ maxLength := by
  unfold findBreakPoint
  cases h : findBreakAux text (lookBackLimit maxLength)
      (maxLength - lookBackLimit maxLength) with
  | none => simp
  | some i =>
    have := (findBreakAux_some text _ _ i h).2.1
    have hlb : lookBackLimit maxLength ≤ maxLength := by
      unfold lookBackLimit; omega
    simp only [Option.getD_some]
    omega

/-- C3. For text not longer than the limit, `truncateText` returns the input
unchanged with `truncated = false`.  For longer text it returns a string of
length at most the limit plus the fixed marker length (21), ending in the
explicit truncation marker, cut at a word-boundary position within the
100-character window below the limit — or exactly at the limit when that
window holds no whitespace. -/
theorem truncateText_spec (text : List Char) (maxLength : Nat) :
    (text.length ≤ maxLength →
      truncateText text maxLength = ⟨text, false⟩) ∧
    (maxLength < text.length →
      (truncateText text maxLength).truncated = true ∧
      (truncateText text maxLength).text.length ≤ maxLength + truncationMarker.length ∧
      truncationMarker <:+ (truncateText text maxLength).text ∧
      ((∃ bp, maxLength - 100 < bp ∧ bp ≤ maxLength ∧ breakCharAt text bp = true ∧
          (truncateText text maxLength).text = jsTrim (text.take bp) ++ truncationMarker) ∨
        ((∀ i, maxLength - 100 < i → i ≤ maxLength → breakCharAt text i = false) ∧
          (truncateText text maxLength).text
            = jsTrim (text.take maxLength) ++ truncationMarker))) := by
  constructor
  · intro h
    unfold truncateText
    rw [if_pos h]
  · intro h
    have hnot : ¬ text.length ≤ maxLength := by omega
    have hresult :
        truncateText text maxLength
          = { text := jsTrim (text.take (findBreakPoint text maxLength)) ++ truncationMarker,
              truncated := true } := by
      unfold truncateText
      rw [if_neg hnot]
    have hbp_le : findBreakPoint text maxLength ≤ maxLength :=
      findBreakPoint_le text maxLength
    have hlen : (jsTrim (text.take (findBreakPoint text maxLength))
        ++ truncationMarker).length ≤ maxLength + truncationMarker.length := by
      rw [List.length_append]
      have h1 := jsTrim_length_le (text.take (findBreakPoint text maxLength))
      have h2 : (text.take (findBreakPoint text maxLength)).length
          ≤ findBreakPoint text maxLength := by
        rw [List.length_take]; omega
      omega
    refine ⟨by rw [hresult], by rw [hresult]; exact hlen,
      by rw [hresult]; exact List.suffix_append _ _, ?_⟩
    rw [hresult]
    have hlb : lookBackLimit maxLength = maxLength - 100 := rfl
    cases hfind : findBreakAux text (lookBackLimit maxLength)
        (maxLength - lookBackLimit maxLength) with
    | some i =>
      left
      obtain ⟨h1, h2, h3⟩ := findBreakAux_some text _ _ i hfind
      have hwin : lookBackLimit maxLength + (maxLength - lookBackLimit maxLength)
          = maxLength := by unfold lookBackLimit; omega
      refine ⟨i, by omega, by omega, h3, ?_⟩
      have : findBreakPoint text maxLength = i := by
        unfold findBreakPoint; rw [hfind]; rfl
      rw [this]
    | none =>
      right
      have hwin : lookBackLimit maxLength + (maxLength - lookBackLimit maxLength)
          = maxLength := by unfold lookBackLimit; omega
      refine ⟨fun i hi1 hi2 => ?_, ?_⟩
      · exact findBreakAux_none text _ _ hfind i (by omega) (by omega)
      · have : findBreakPoint text maxLength = maxLength := by
          unfold findBreakPoint; rw [hfind]; rfl
        rw [this]

/-- Witness for C3 at concrete inputs: `"ab cd"` with limit 10 is returned
unchanged, and `"aaaa bbbb cccc"` with limit 6 is truncated at the space
before position 6 and ends with the marker. -/
theorem truncateText_spec_witness :
    truncateText "ab cd".toList 10 = ⟨"ab cd".toList, false⟩ ∧
    (truncateText "aaaa bbbb cccc".toList 6).truncated = true ∧
    (truncateText "aaaa bbbb cccc".toList 6).text.length ≤ 6 + truncationMarker.length ∧
    truncationMarker <:+ (truncateText "aaaa bbbb cccc".toList 6).text :=
  ⟨(truncateText_spec "ab cd".toList 10).1 (by decide),
    ((truncateText_spec "aaaa bbbb cccc".toList 6).2 (by decide)).1,
    ((truncateText_spec "aaaa bbbb cccc".toList 6).2 (by decide)).2.1,
    ((truncateText_spec "aaaa bbbb cccc".toList 6).2 (by decide)).2.2.1⟩

/-! ## Invariant machinery for the traversal -/

theorem foldl_preserve {α β : Type} (P : β → Prop) (f : β → α → β)
    (h : ∀ b a, P b → P (f b a)) :
    ∀ (l : List α) (b : β), P b → P (l.foldl f b) := by
  intro l
  induction l with
  | nil => intro b hb; exact hb
  | cons a l ih => intro b hb; exact ih _ (h b a hb)

theorem processLevel_preserve (maxDepth batchSize : Nat) (env : Env)
    (P : TraverseState → Prop)
    (hstep : ∀ s node, P s → P (handleResult maxDepth env node s)) :
    ∀ level s, P s → P (processLevel maxDepth batchSize env level s) := by
  intro level s hP
  unfold processLevel
  refine foldl_preserve P _ ?_ _ _ hP
  intro b batch hb
  unfold processBatch
  exact foldl_preserve P _ (fun b2 node hb2 => hstep b2 node hb2) _ _ hb

theorem traverseLoop_preserve (maxDepth batchSize : Nat) (env : Env)
    (P : TraverseState → Prop)
    (hstep : ∀ s node, P s → P (handleResult maxDepth env node s))
    (hqueue : ∀ s q, P s → P { s with queue := q }) :
    ∀ fuel s s', P s →
      traverseLoop maxDepth batchSize env fuel s = some s' → P s' := by
  intro fuel
  induction fuel with
  | zero =>
    intro s s' hP h
    unfold traverseLoop at h
    split at h
    · injection h with h'; subst h'; exact hP
    · exact Option.noConfusion h
  | succ fuel ih =>
    intro s s' hP h
    unfold traverseLoop at h
    split at h
    · injection h with h'; subst h'; exact hP
    · exact ih _ _
        (processLevel_preserve maxDepth batchSize env P hstep _ _ (hqueue s _ hP)) h

theorem enqueueChild_counts (node : EntityNode) (st : TraverseState) (c : String) :
    (enqueueChild node st c).entityCount = st.entityCount ∧
    (enqueueChild node st c).successCount = st.successCount ∧
    (enqueueChild node st c).incompleteCount = st.incompleteCount ∧
    (enqueueChild node st c).errors = st.errors ∧
    (enqueueChild node st c).written = st.written ∧
    (enqueueChild node st c).incompleteRecords = st.incompleteRecords := by
  unfold enqueueChild
  split <;> exact ⟨rfl, rfl, rfl, rfl, rfl, rfl⟩

theorem enqueueChildren_counts (node : EntityNode) (children : List String)
    (st : TraverseState) :
    (enqueueChildren node children st).entityCount = st.entityCount ∧
    (enqueueChildren node children st).successCount = st.successCount ∧
    (enqueueChildren node children st).incompleteCount = st.incompleteCount ∧
    (enqueueChildren node children st).errors = st.errors ∧
    (enqueueChildren node children st).written = st.written ∧
    (enqueueChildren node children st).incompleteRecords = st.incompleteRecords := by
  unfold enqueueChildren
  refine foldl_preserve
    (fun b => b.entityCount = st.entityCount ∧ b.successCount = st.successCount ∧
      b.incompleteCount = st.incompleteCount ∧ b.errors = st.errors ∧
      b.written = st.written ∧ b.incompleteRecords = st.incompleteRecords)
    (enqueueChild node) ?_ children st ⟨rfl, rfl, rfl, rfl, rfl, rfl⟩
  intro b a hb
  have h := enqueueChild_counts node b a
  exact ⟨h.1.trans hb.1, h.2.1.trans hb.2.1, h.2.2.1.trans hb.2.2.1,
    h.2.2.2.1.trans hb.2.2.2.1, h.2.2.2.2.1.trans hb.2.2.2.2.1,
    h.2.2.2.2.2.trans hb.2.2.2.2.2⟩

/-- The count invariant preserved by every handled result: the code's
`successCount` (which also counts incomplete records) plus the number of
recorded errors equals the number of visited entities, and the incomplete
count never exceeds the success count. -/
theorem handleResult_counts (maxDepth : Nat) (env : Env) (node : EntityNode)
    (s : TraverseState)
    (h : s.successCount + s.errors.length = s.entityCount ∧
      s.incompleteCount ≤ s.successCount) :
    (handleResult maxDepth env node s).successCount
        + (handleResult maxDepth env node s).errors.length
      = (handleResult maxDepth env node s).entityCount ∧
    (handleResult maxDepth env node s).incompleteCount
      ≤ (handleResult maxDepth env node s).successCount := by
  obtain ⟨h1, h2⟩ := h
  cases henv : env node.pi with
  | failed msg =>
    simp only [handleResult, henv, List.length_append, List.length_cons,
      List.length_nil]
    omega
  | ok children hasPinax =>
    simp only [handleResult, henv]
    split
    · rw [(enqueueChildren_counts node children _).1,
        (enqueueChildren_counts node children _).2.1,
        (enqueueChildren_counts node children _).2.2.1,
        (enqueueChildren_counts node children _).2.2.2.1]
      cases hasPinax <;> simp <;> omega
    · cases hasPinax <;> simp <;> omega

/-! ## Theorems: traversal claims -/

theorem enqueueChild_nodup (node : EntityNode) (st : TraverseState) (c : String)
    (h : (st.events.map (fun e => e.node.pi)).Nodup ∧
      ∀ p, p ∈ st.events.map (fun e => e.node.pi) ↔ p ∈ st.visited) :
    ((enqueueChild node st c).events.map (fun e => e.node.pi)).Nodup ∧
    ∀ p, p ∈ (enqueueChild node st c).events.map (fun e => e.node.pi)
      ↔ p ∈ (enqueueChild node st c).visited := by
  obtain ⟨h1, h2⟩ := h
  unfold enqueueChild
  split
  · exact ⟨h1, h2⟩
  · rename_i hc
    constructor
    · simp only [List.map_cons, List.nodup_cons, EnqueueEvent.node]
      exact ⟨fun hmem => hc ((h2 c).mp hmem), h1⟩
    · intro p
      simp only [List.map_cons, List.mem_cons, EnqueueEvent.node]
      constructor
      · rintro (rfl | hm)
        · exact Or.inl rfl
        · exact Or.inr ((h2 p).mp hm)
      · rintro (rfl | hv)
        · exact Or.inl rfl
        · exact Or.inr ((h2 p).mpr hv)

theorem handleResult_nodup (maxDepth : Nat) (env : Env) (st : TraverseState)
    (node : EntityNode)
    (h : (st.events.map (fun e => e.node.pi)).Nodup ∧
      ∀ p, p ∈ st.events.map (fun e => e.node.pi) ↔ p ∈ st.visited) :
    ((handleResult maxDepth env node st).events.map (fun e => e.node.pi)).Nodup ∧
    ∀ p, p ∈ (handleResult maxDepth env node st).events.map (fun e => e.node.pi)
      ↔ p ∈ (handleResult maxDepth env node st).visited := by
  cases henv : env node.pi with
  | failed msg =>
    simp only [handleResult, henv]
    exact h
  | ok children hasPinax =>
    simp only [handleResult, henv, enqueueChildren]
    split
    · refine foldl_preserve
        (fun st2 => (st2.events.map (fun e => e.node.pi)).Nodup ∧
          ∀ p, p ∈ st2.events.map (fun e => e.node.pi) ↔ p ∈ st2.visited)
        (enqueueChild node) (fun b a hb => enqueueChild_nodup node b a hb)
        children _ ?_
      exact h
    · exact h

theorem enqueueChild_eventOk (maxDepth : Nat) (node : EntityNode)
    (st : TraverseState) (c : String) (hd : node.depth < maxDepth)
    (h : ∀ e ∈ st.events, eventOk maxDepth e = true) :
    ∀ e ∈ (enqueueChild node st c).events, eventOk maxDepth e = true := by
  unfold enqueueChild
  split
  · exact h
  · intro e he
    rcases List.mem_cons.mp he with rfl | he'
    · simp [eventOk, hd]
    · exact h e he'

theorem handleResult_eventOk (maxDepth : Nat) (env : Env) (st : TraverseState)
    (node : EntityNode)
    (h : ∀ e ∈ st.events, eventOk maxDepth e = true) :
    ∀ e ∈ (handleResult maxDepth env node st).events, eventOk maxDepth e = true := by
  cases henv : env node.pi with
  | failed msg =>
    simp only [handleResult, henv]
    exact h
  | ok children hasPinax =>
    simp only [handleResult, henv, enqueueChildren]
    split
    · rename_i hd
      refine foldl_preserve
        (fun st2 => ∀ e ∈ st2.events, eventOk maxDepth e = true)
        (enqueueChild node) (fun b a hb => enqueueChild_eventOk maxDepth node b a hd hb)
        children _ ?_
      exact h
    · exact h

/-- C5. In every terminating traversal, entity identifiers are enqueued at
most once — the log of enqueue events carries pairwise-distinct PIs — and
the identifiers ever enqueued are exactly the visited set (an identifier is
marked visited at enqueue time, so later discoveries of the same child by
other parents are ignored). -/
theorem enqueue_at_most_once (rootPI : String) (maxDepth batchSize : Nat)
    (env : Env) (fuel : Nat) (s : TraverseState)
    (h : traverseBFS rootPI maxDepth batchSize env fuel = some s) :
    (s.events.map (fun e => e.node.pi)).Nodup ∧
    ∀ p, p ∈ s.events.map (fun e => e.node.pi) ↔ p ∈ s.visited := by
  refine traverseLoop_preserve maxDepth batchSize env
    (fun st => (st.events.map (fun (e : EnqueueEvent) => e.node.pi)).Nodup ∧
      ∀ p, p ∈ st.events.map (fun (e : EnqueueEvent) => e.node.pi) ↔ p ∈ st.visited)
    (fun st node hP => handleResult_nodup maxDepth env st node hP)
    (fun st q hP => hP) fuel (initState rootPI) s ?_ h
  constructor
  · simp [initState]
  · intro p
    simp [initState]

/-- Witness for C5 at the diamond environment (`a` and `b` both report the
child `c`): the four enqueue events carry pairwise-distinct PIs, and `c` is
both enqueued and visited exactly per the visited set. -/
theorem enqueue_at_most_once_witness :
    ((sDiamond.events.map (fun e => e.node.pi)).Nodup) ∧
    ("c" ∈ sDiamond.events.map (fun e => e.node.pi) ↔ "c" ∈ sDiamond.visited) :=
  ⟨(enqueue_at_most_once "root" 5 10 envDiamond 4 sDiamond rfl).1,
    (enqueue_at_most_once "root" 5 10 envDiamond 4 sDiamond rfl).2 "c"⟩

/-- C6. In every terminating traversal with maximum depth `maxDepth`, every
enqueue event is depth-disciplined: the root enters at depth 0, every child
enters at exactly its parent's depth + 1, and a child is enqueued only when
its parent's depth is strictly below `maxDepth` (children of a node at
`maxDepth` are never enqueued). -/
theorem depth_discipline (rootPI : String) (maxDepth batchSize : Nat)
    (env : Env) (fuel : Nat) (s : TraverseState)
    (h : traverseBFS rootPI maxDepth batchSize env fuel = some s) :
    ∀ e ∈ s.events, eventOk maxDepth e = true := by
  refine traverseLoop_preserve maxDepth batchSize env
    (fun st => ∀ e ∈ st.events, eventOk maxDepth e = true)
    (fun st node hP => handleResult_eventOk maxDepth env st node hP)
    (fun st q hP => hP) fuel (initState rootPI) s ?_ h
  intro e he
  rcases List.mem_cons.mp he with rfl | he'
  · simp [eventOk]
  · simp at he'

/-- Witness for C6 at the diamond run: the event enqueuing `a` under `root`
satisfies the depth discipline (depth 1 = 0 + 1, parent depth 0 < 5). -/
theorem depth_discipline_witness :
    eventOk 5 (EnqueueEvent.child
      { pi := "root", depth := 0, parentPI := none, pathFromRoot := ["root"] }
      { pi := "a", depth := 1, parentPI := some "root", pathFromRoot := ["root", "a"] })
      = true :=
  depth_discipline "root" 5 10 envDiamond 4 sDiamond rfl _ (by decide)

theorem foldl_rel {α β : Type} (R : β → β → Prop) (f : β → α → β)
    (h : ∀ b1 b2 a, R b1 b2 → R (f b1 a) (f b2 a)) :
    ∀ (l : List α) (b1 b2 : β), R b1 b2 → R (l.foldl f b1) (l.foldl f b2) := by
  intro l
  induction l with
  | nil => intro b1 b2 hb; exact hb
  | cons a l ih => intro b1 b2 hb; exact ih _ _ (h b1 b2 a hb)

theorem enqueueChild_qve (node : EntityNode) (st1 st2 : TraverseState) (c : String)
    (h : st1.queue = st2.queue ∧ st1.visited = st2.visited ∧ st1.events = st2.events) :
    (enqueueChild node st1 c).queue = (enqueueChild node st2 c).queue ∧
    (enqueueChild node st1 c).visited = (enqueueChild node st2 c).visited ∧
    (enqueueChild node st1 c).events = (enqueueChild node st2 c).events := by
  obtain ⟨hq, hv, he⟩ := h
  unfold enqueueChild
  by_cases hc : c ∈ st2.visited
  · rw [if_pos hc, if_pos (show c ∈ st1.visited by rw [hv]; exact hc)]
    exact ⟨hq, hv, he⟩
  · rw [if_neg hc, if_neg (show c ∉ st1.visited by rw [hv]; exact hc)]
    exact ⟨by rw [hq], by rw [hv], by rw [he]⟩

theorem handleResult_errors_mono (maxDepth : Nat) (env : Env) (node : EntityNode)
    (st : TraverseState) :
    st.errors <+: (handleResult maxDepth env node st).errors := by
  cases henv : env node.pi with
  | failed msg =>
    simp only [handleResult, henv]
    exact ⟨[(node.pi, msg)], rfl⟩
  | ok children hasPinax =>
    simp only [handleResult, henv]
    split
    · rw [(enqueueChildren_counts node children _).2.2.2.1]
    · exact List.prefix_rfl

/-- C7. (1) A node whose per-entity processing rejects enqueues nothing (the
queue, visited set and enqueue log are untouched): processing just counts
the entity and records the error.  (2) A node classified incomplete (missing
`pinax.json`) enqueues its children exactly as a full success does.  (3) The
traversal continues to completion: every recorded error survives into the
final state's error list. -/
theorem failed_node_prunes_continues :
    (∀ (maxDepth : Nat) (env : Env) (node : EntityNode) (s : TraverseState)
        (msg : String),
      env node.pi = .failed msg →
      handleResult maxDepth env node s
        = { s with entityCount := s.entityCount + 1,
                   errors := s.errors ++ [(node.pi, msg)] }) ∧
    (∀ (maxDepth : Nat) (envA envB : Env) (node : EntityNode) (s : TraverseState)
        (children : List String),
      envA node.pi = .ok children false →
      envB node.pi = .ok children true →
      (handleResult maxDepth envA node s).queue
          = (handleResult maxDepth envB node s).queue ∧
      (handleResult maxDepth envA node s).visited
          = (handleResult maxDepth envB node s).visited ∧
      (handleResult maxDepth envA node s).events
          = (handleResult maxDepth envB node s).events) ∧
    (∀ (maxDepth batchSize : Nat) (env : Env) (fuel : Nat) (s s' : TraverseState),
      traverseLoop maxDepth batchSize env fuel s = some s' →
      s.errors <+: s'.errors) := by
  refine ⟨?_, ?_, ?_⟩
  · intro maxDepth env node s msg henv
    simp only [handleResult, henv]
  · intro maxDepth envA envB node s children hA hB
    simp only [handleResult, hA, hB, enqueueChildren]
    by_cases hd : node.depth < maxDepth
    · rw [if_pos hd, if_pos hd]
      refine foldl_rel
        (fun st1 st2 => st1.queue = st2.queue ∧ st1.visited = st2.visited ∧
          st1.events = st2.events)
        (enqueueChild node) (fun b1 b2 a hb => enqueueChild_qve node b1 b2 a hb)
        children _ _ ⟨?_, ?_, ?_⟩ <;> rfl
    · rw [if_neg hd, if_neg hd]
      exact ⟨rfl, rfl, rfl⟩
  · intro maxDepth batchSize env fuel s s' h
    exact traverseLoop_preserve maxDepth batchSize env
      (fun st => s.errors <+: st.errors)
      (fun st node hP => hP.trans (handleResult_errors_mono maxDepth env node st))
      (fun st q hP => hP) fuel s s' List.prefix_rfl h

/-- Witness for C7: the failing node `a` of `envOneError` only counts the
entity and records the error; the queue effect of an incomplete result
equals that of a complete one at a concrete node; and the root state's
(empty) error list is a prefix of the final error list of the `envOneError`
run. -/
theorem failed_node_prunes_continues_witness :
    (handleResult 5 envOneError
        { pi := "a", depth := 1, parentPI := some "root", pathFromRoot := ["root", "a"] }
        (initState "root")
      = { initState "root" with
          entityCount := (initState "root").entityCount + 1,
          errors := (initState "root").errors ++ [("a", "Manifest fetch failed")] }) ∧
    ((handleResult 5 (fun _ => EntityOutcome.ok ["x"] false)
        { pi := "r", depth := 0, pathFromRoot := ["r"] } (initState "r")).queue
      = (handleResult 5 (fun _ => EntityOutcome.ok ["x"] true)
        { pi := "r", depth := 0, pathFromRoot := ["r"] } (initState "r")).queue) ∧
    (initState "root").errors <+: sOneError.errors :=
  ⟨failed_node_prunes_continues.1 5 envOneError
      { pi := "a", depth := 1, parentPI := some "root", pathFromRoot := ["root", "a"] }
      (initState "root") "Manifest fetch failed" rfl,
    (failed_node_prunes_continues.2.1 5
      (fun _ => EntityOutcome.ok ["x"] false) (fun _ => EntityOutcome.ok ["x"] true)
      { pi := "r", depth := 0, pathFromRoot := ["r"] } (initState "r") ["x"] rfl rfl).1,
    failed_node_prunes_continues.2.2 5 10 envOneError 3 (initState "root") sOneError rfl⟩

theorem handleResult_written (maxDepth : Nat) (env : Env) (st : TraverseState)
    (node : EntityNode)
    (h : st.written.length = st.successCount ∧
      st.incompleteCount ≤ st.successCount ∧
      ∀ p ∈ st.written, ∃ ch b, env p = EntityOutcome.ok ch b) :
    (handleResult maxDepth env node st).written.length
        = (handleResult maxDepth env node st).successCount ∧
    (handleResult maxDepth env node st).incompleteCount
        ≤ (handleResult maxDepth env node st).successCount ∧
    ∀ p ∈ (handleResult maxDepth env node st).written,
      ∃ ch b, env p = EntityOutcome.ok ch b := by
  obtain ⟨h1, h2, h3⟩ := h
  cases henv : env node.pi with
  | failed msg =>
    simp only [handleResult, henv]
    exact ⟨h1, h2, h3⟩
  | ok children hasPinax =>
    simp only [handleResult, henv]
    split
    · rw [(enqueueChildren_counts node children _).2.1,
        (enqueueChildren_counts node children _).2.2.1,
        (enqueueChildren_counts node children _).2.2.2.2.1]
      refine ⟨?_, ?_, ?_⟩
      · simp only [List.length_append, List.length_cons, List.length_nil]
        omega
      · cases hasPinax <;> simp <;> omega
      · intro p hp
        rcases List.mem_append.mp hp with hold | hnew
        · exact h3 p hold
        · rcases List.mem_singleton.mp hnew with rfl
          exact ⟨children, hasPinax, henv⟩
    · refine ⟨?_, ?_, ?_⟩
      · simp only [List.length_append, List.length_cons, List.length_nil]
        omega
      · cases hasPinax <;> simp <;> omega
      · intro p hp
        rcases List.mem_append.mp hp with hold | hnew
        · exact h3 p hold
        · rcases List.mem_singleton.mp hnew with rfl
          exact ⟨children, hasPinax, henv⟩

/-- C8. In every terminating traversal the number of `writeMods` calls
equals the spec's success count (the fully-successful records,
`successCount - incompleteCount` in the code's counters) plus the
incomplete count, and no record is ever written for a node whose processing
rejected. -/
theorem writes_match_counts (rootPI : String) (maxDepth batchSize : Nat)
    (env : Env) (fuel : Nat) (s : TraverseState)
    (h : traverseBFS rootPI maxDepth batchSize env fuel = some s) :
    s.written.length
        = (s.successCount - s.incompleteCount) + s.incompleteCount ∧
    ∀ p msg, env p = EntityOutcome.failed msg → p ∉ s.written := by
  have hP : s.written.length = s.successCount ∧
      s.incompleteCount ≤ s.successCount ∧
      ∀ p ∈ s.written, ∃ ch b, env p = EntityOutcome.ok ch b := by
    refine traverseLoop_preserve maxDepth batchSize env
      (fun st => st.written.length = st.successCount ∧
        st.incompleteCount ≤ st.successCount ∧
        ∀ p ∈ st.written, ∃ ch b, env p = EntityOutcome.ok ch b)
      (fun st node hPs => handleResult_written maxDepth env st node hPs)
      (fun st q hPs => hPs) fuel (initState rootPI) s ?_ h
    exact ⟨rfl, Nat.le_refl 0, fun p hp => absurd hp (List.not_mem_nil p)⟩
  obtain ⟨h1, h2, h3⟩ := hP
  constructor
  · omega
  · intro p msg hpm hmem
    obtain ⟨ch, b, hok⟩ := h3 p hmem
    rw [hpm] at hok
    exact EntityOutcome.noConfusion hok

/-- Witness for C8 at the `envOneError` run: two records written = (2 − 1)
successes + 1 incomplete, and the failing PI `a` was never written. -/
theorem writes_match_counts_witness :
    sOneError.written.length
        = (sOneError.successCount - sOneError.incompleteCount)
          + sOneError.incompleteCount ∧
    "a" ∉ sOneError.written :=
  ⟨(writes_match_counts "root" 5 10 envOneError 3 sOneError rfl).1,
    (writes_match_counts "root" 5 10 envOneError 3 sOneError rfl).2
      "a" "Manifest fetch failed" rfl⟩

/-- C1 counterexample: a single root entity whose `pinax.json` is missing.
The run fulfils (success), is flagged incomplete, and has no error, so the
summary reads `totalEntities = 1`, `successCount = 1`, `incompleteCount = 1`,
`errorCount = 0`, and `successCount + incompleteCount + errorCount = 2 ≠ 1 =
totalEntities`: the claimed identity fails because `successCount` already
includes incomplete records. -/
theorem summary_counts_counterexample :
    (exportRecursive "root" "out.xml" 5 10 (fun _ => EntityOutcome.ok [] false) 2).map
        (fun r => (r.successCount + r.incompleteCount + r.errorCount, r.totalEntities))
      = some (2, 1) ∧ (2 : Nat) ≠ 1 :=
  ⟨rfl, by decide⟩

/-- C1 amended: in every terminating traversal the summary satisfies
`successCount + errorCount = totalEntities` and
`incompleteCount ≤ successCount` — incomplete records are counted inside
`successCount`, so the sum of the three counters exceeds the total by
exactly the incomplete count. -/
theorem summary_counts_amended (rootPI outputPath : String)
    (maxDepth batchSize : Nat) (env : Env) (fuel : Nat)
    (r : RecursiveExportResult)
    (h : exportRecursive rootPI outputPath maxDepth batchSize env fuel = some r) :
    r.successCount + r.errorCount = r.totalEntities ∧
    r.incompleteCount ≤ r.successCount := by
  unfold exportRecursive at h
  cases htr : traverseBFS rootPI maxDepth batchSize env fuel with
  | none => rw [htr] at h; exact Option.noConfusion h
  | some s =>
    rw [htr] at h
    have hs : s.successCount + s.errors.length = s.entityCount ∧
        s.incompleteCount ≤ s.successCount := by
      exact traverseLoop_preserve maxDepth batchSize env
        (fun st => st.successCount + st.errors.length = st.entityCount ∧
          st.incompleteCount ≤ st.successCount)
        (fun st node hP => handleResult_counts maxDepth env node st hP)
        (fun s' q hP => hP)
        fuel (initState rootPI) s ⟨rfl, Nat.le_refl 0⟩ htr
    simp only [Option.map_some'] at h
    injection h with h'
    subst h'
    exact hs

/-- Witness for the amended C1 at the concrete single-incomplete-root run:
the counters 1 (success), 0 (errors), 1 (total), 1 (incomplete). -/
theorem summary_counts_amended_witness : (1 : Nat) + 0 = 1 ∧ (1 : Nat) ≤ 1 := by
  exact summary_counts_amended "root" "out.xml" 5 10
    (fun _ => EntityOutcome.ok [] false) 2
    { totalEntities := 1, successCount := 1, errorCount := 0, incompleteCount := 1,
      outputPath := "out.xml", errors := [],
      incompleteRecords := [("root", "Missing PINAX metadata (pinax.json component not found)")] }
    rfl

/-- C2 counterexample: `"toString"` is not one of the twelve table keys,
yet `typeMap['toString']` finds the inherited `Object.prototype.toString` —
a truthy function — so `|| 'text'` never fires and `mapResourceType`
returns that member instead of the claimed default `'text'` (nothing
upstream excludes such inputs: the PINAX record reaches the crosswalk as a
bare `JSON.parse` cast, the zod enum is never applied on this path). -/
theorem mapResourceType_default_counterexample :
    "toString" ∉ resourceTypeKeys ∧
    mapResourceType "toString" = JsValue.protoMember "toString" ∧
    mapResourceType "toString" ≠ JsValue.str "text" :=
  ⟨by decide, by decide, by decide⟩

/-- C2 amended. `mapResourceType` maps each of the twelve listed DCMI
source values to the exact target value of the fixed lookup table (in
particular `Image` ↦ `still image`); for a string outside the table it
returns the default `'text'` unless the string names an `Object.prototype`
property, in which case the object-literal lookup yields the inherited
truthy member and that member — not `'text'` — is returned. -/
theorem mapResourceType_table_and_default (s : String)
    (h : s ∉ resourceTypeKeys) :
    mapResourceType "Text" = .str "text" ∧
    mapResourceType "Image" = .str "still image" ∧
    mapResourceType "StillImage" = .str "still image" ∧
    mapResourceType "MovingImage" = .str "moving image" ∧
    mapResourceType "Sound" = .str "sound recording" ∧
    mapResourceType "Dataset" = .str "software, multimedia" ∧
    mapResourceType "InteractiveResource" = .str "software, multimedia" ∧
    mapResourceType "Software" = .str "software, multimedia" ∧
    mapResourceType "Collection" = .str "mixed material" ∧
    mapResourceType "PhysicalObject" = .str "three dimensional object" ∧
    mapResourceType "Event" = .str "text" ∧
    mapResourceType "Service" = .str "text" ∧
    (s ∉ objectPrototypeKeys → mapResourceType s = .str "text") ∧
    (s ∈ objectPrototypeKeys → mapResourceType s = .protoMember s) := by
  simp only [resourceTypeKeys, List.mem_cons, List.not_mem_nil, or_false] at h
  push_neg at h
  obtain ⟨h1, h2, h3, h4, h5, h6, h7, h8, h9, h10, h11, h12⟩ := h
  refine ⟨by decide, by decide, by decide, by decide, by decide, by decide,
    by decide, by decide, by decide, by decide, by decide, by decide, ?_, ?_⟩
  · intro hp
    simp [mapResourceType, typeMapGet, h1, h2, h3, h4, h5, h6, h7, h8, h9,
      h10, h11, h12, hp]
  · intro hp
    simp [mapResourceType, typeMapGet, JsValue.truthy, h1, h2, h3, h4, h5,
      h6, h7, h8, h9, h10, h11, h12, hp]

/-- Witness for C2: the default branch at the concrete unlisted,
non-prototype input `"Moving"`, and the inherited-member branch at the
concrete `Object.prototype` name `"valueOf"`. -/
theorem mapResourceType_table_and_default_witness :
    mapResourceType "Moving" = JsValue.str "text" ∧
    mapResourceType "valueOf" = JsValue.protoMember "valueOf" :=
  ⟨(mapResourceType_table_and_default "Moving"
      (by decide)).2.2.2.2.2.2.2.2.2.2.2.2.1 (by decide),
    (mapResourceType_table_and_default "valueOf"
      (by decide)).2.2.2.2.2.2.2.2.2.2.2.2.2 (by decide)⟩

/-- C9. For every present source record and manifest, `mapIdentifiers` emits
exactly three identifier entries: the PINAX local id, the Arke persistent
identifier, and a URI; an `access_url` equal to the sentinel `PLACEHOLDER`
is replaced by a URI built from the PI, any other `access_url` is passed
through verbatim. -/
theorem mapIdentifiers_three_entries (pinax : PinaxMetadata) (manifest : ArkeManifest) :
    (mapIdentifiers pinax manifest).length = 3 ∧
    (∃ i ∈ mapIdentifiers pinax manifest,
      i.type = some "local" ∧ i.value = pinax.id) ∧
    (∃ i ∈ mapIdentifiers pinax manifest,
      i.type = some "arke-pi" ∧ i.value = manifest.pi) ∧
    (∃ i ∈ mapIdentifiers pinax manifest,
      i.type = some "uri" ∧
      i.value = (if pinax.access_url = "PLACEHOLDER"
                 then "https://arke.institute/" ++ manifest.pi
                 else pinax.access_url)) := by
  refine ⟨rfl,
    ⟨⟨pinax.id, some "local", some "PINAX ID"⟩, by simp [mapIdentifiers], rfl, rfl⟩,
    ⟨⟨manifest.pi, some "arke-pi", some "Arke Persistent Identifier"⟩,
      by simp [mapIdentifiers], rfl, rfl⟩,
    ⟨⟨if pinax.access_url = "PLACEHOLDER"
        then "https://arke.institute/" ++ manifest.pi
        else pinax.access_url, some "uri", some "Arke URI"⟩,
      by simp [mapIdentifiers], rfl, rfl⟩⟩

/-- C4. When the primary metadata record (`pinax.json`) is absent, the export
path produces the minimal document (flagged incomplete) instead of failing,
and that document has: one title of alternative type whose text contains the
entity's PI, exactly two identifier entries (the PI and the manifest CID),
one location URL at the manifest retrieval endpoint, and record-info with a
non-empty record-origin string. -/
theorem minimalMods_wellformed (config : ExportConfig) (manifest : ArkeManifest)
    (description : Option String) (nowDate : String) :
    (modsForEntity config none manifest description nowDate).2 = true ∧
    (modsForEntity config none manifest description nowDate).1
      = generateMinimalMods manifest nowDate ∧
    ((generateMinimalMods manifest nowDate).titleInfo.length = 1 ∧
      ∃ t ∈ (generateMinimalMods manifest nowDate).titleInfo,
        t.type = some "alternative" ∧ containsSub t.title manifest.pi) ∧
    ((generateMinimalMods manifest nowDate).identifiers.length = 2 ∧
      (∃ i ∈ (generateMinimalMods manifest nowDate).identifiers,
        i.type = some "arke-pi" ∧ i.value = manifest.pi) ∧
      (∃ i ∈ (generateMinimalMods manifest nowDate).identifiers,
        i.type = some "arke-manifest-cid" ∧ i.value = manifest.manifest_cid)) ∧
    (∃ loc, (generateMinimalMods manifest nowDate).location = some loc ∧
      loc.urls.length = 1 ∧
      ∃ u ∈ loc.urls, u.url = "https://api.arke.institute/manifest/" ++ manifest.pi) ∧
    (∃ origin, (generateMinimalMods manifest nowDate).recordInfo.recordOrigin = some origin ∧
      origin ≠ "") := by
  refine ⟨rfl, rfl, ⟨rfl, ?_⟩, ⟨rfl, ?_, ?_⟩, ?_, ?_⟩
  · exact ⟨⟨"[Incomplete Record: " ++ manifest.pi ++ "]", none, some "alternative", none⟩,
      by simp [generateMinimalMods], rfl, ⟨"[Incomplete Record: ", "]", rfl⟩⟩
  · exact ⟨⟨manifest.pi, some "arke-pi", some "Arke Persistent Identifier"⟩,
      by simp [generateMinimalMods], rfl, rfl⟩
  · exact ⟨⟨manifest.manifest_cid, some "arke-manifest-cid", some "Manifest CID"⟩,
      by simp [generateMinimalMods], rfl, rfl⟩
  · exact ⟨(generateMinimalMods manifest nowDate).location.get rfl, rfl, rfl,
      ⟨"https://api.arke.institute/manifest/" ++ manifest.pi, some "primary", none,
        some "Arke Manifest API"⟩,
      by simp [generateMinimalMods], rfl⟩
  · exact ⟨"Generated by arke-mods-export-worker with graceful degradation (missing PINAX)",
      rfl, by decide⟩

/-- C10. Calling `writeMods` when the writer has not been successfully
opened (the stream absent or the open flag unset) rejects with the
writer-not-open error without producing any post-state — so nothing is
appended to the sink.  Moreover every successful `writeMods` requires the
open state, appends exactly one chunk, and neither `writeMods` nor
`closeWriter` ever changes the open flag (only `openWriter` does). -/
theorem writeMods_requires_open (s : WriterState) (modsXml : List Char)
    (node : EntityNode) (h : s.isOpen = false ∨ s.stream = none) :
    writeMods s modsXml node = .error "Writer not open - call open() first" ∧
    (∀ s' : WriterState, writeMods s modsXml node ≠ .ok s') ∧
    (∀ (s2 : WriterState) (xml2 : List Char) (node2 : EntityNode) (s2' : WriterState),
      writeMods s2 xml2 node2 = .ok s2' →
      s2.isOpen = true ∧ s2'.isOpen = s2.isOpen ∧
      ∃ chunks chunk, s2.stream = some chunks ∧ s2'.stream = some (chunks ++ [chunk])) ∧
    (∀ s3 s3' : WriterState, closeWriter s3 = .ok s3' → s3'.isOpen = s3.isOpen) := by
  have hguard : writeMods s modsXml node = .error "Writer not open - call open() first" := by
    unfold writeMods
    rw [if_pos h]
  refine ⟨hguard, fun s' hok => by rw [hguard] at hok; exact Except.noConfusion hok,
    ?_, ?_⟩
  · intro s2 xml2 node2 s2' hok
    unfold writeMods at hok
    split at hok
    · exact absurd hok (by simp)
    · rename_i hcond
      push_neg at hcond
      obtain ⟨hopen, hstream⟩ := hcond
      refine ⟨by simpa using hopen, ?_, ?_⟩
      all_goals {
        cases hex : extractModsElement xml2 with
        | error e => rw [hex] at hok; exact absurd hok (by simp)
        | ok modsElement =>
          rw [hex] at hok
          unfold writeChunk at hok
          cases hst : s2.stream with
          | none => exact absurd hst hstream
          | some chunks =>
            rw [hst] at hok
            simp only [Except.ok.injEq] at hok
            subst hok
            first
            | rfl
            | exact ⟨chunks, _, rfl, rfl⟩
      }
  · intro s3 s3' hok
    unfold closeWriter at hok
    cases hst : s3.stream with
    | none =>
      rw [hst] at hok
      simp only [Except.ok.injEq] at hok
      subst hok; rfl
    | some chunks =>
      rw [hst] at hok
      unfold writeChunk at hok
      rw [hst] at hok
      simp only [Except.ok.injEq] at hok
      subst hok; rfl

/-- Witness for C10: the fresh writer (never opened) rejects a record
write with the writer-not-open error. -/
theorem writeMods_requires_open_witness :
    writeMods initialWriterState "<mods></mods>".toList
        { pi := "x", depth := 0, pathFromRoot := ["x"] }
      = .error "Writer not open - call open() first" :=
  (writeMods_requires_open initialWriterState "<mods></mods>".toList
    { pi := "x", depth := 0, pathFromRoot := ["x"] } (Or.inl rfl)).1

end ArkeExport
